import Mathlib

/-!
Shallow embedding of the elimination core of the Numerical-Computation-Module
repository (src/linear_system.py together with the hyperplane classes of
src/plane.py and src/line.py and the coordinate tuples of src/vector.py).

Real numbers are modelled by exact rationals; the fixed tolerance 1e-10 of
the source is the exact rational 1/10^10.  Python lists are Lean lists;
indexed reads are modelled with getD (the source only indexes in bounds on
well-formed systems) and indexed writes with List.set.  The exception used
as a control-flow signal for "no nonzero element found" is modelled as an
Option result, and the exceptions of compute_solution as an Except value.
-/

unseal Rat.mul Rat.add Rat.sub Rat.inv

namespace NumComp

/-- The fixed tolerance 1e-10 of LinearSystem.is_near_zero. -/
def eps : ℚ := 1 / 10000000000

/-- Python abs on a rational value. -/
def qabs (v : ℚ) : ℚ := if v < 0 then -v else v

/-- LinearSystem.is_near_zero (also Line.is_near_zero): abs(val) < 1e-10. -/
def is_near_zero (v : ℚ) : Bool := decide (qabs v < eps)

/-- A hyperplane value as the elimination engine consumes it: the dimension
attribute, the coordinates of the normal vector, and the constant term.
Line.__init__ stores dimension 2 and Plane.__init__ overwrites it with 3,
in both cases independent of the coordinate length of the normal vector. -/
structure Hyperplane where
  dimension : ℕ
  normal_vector : List ℚ
  constant_term : ℚ
deriving DecidableEq, Repr

/-- Plane.__init__ with an explicit normal vector and constant term:
the dimension attribute is always 3. -/
def mkPlane (normal_vector : List ℚ) (constant_term : ℚ) : Hyperplane :=
  { dimension := 3, normal_vector := normal_vector, constant_term := constant_term }

/-- Line.__init__ with an explicit normal vector and constant term:
the dimension attribute is always 2. -/
def mkLine (normal_vector : List ℚ) (constant_term : ℚ) : Hyperplane :=
  { dimension := 2, normal_vector := normal_vector, constant_term := constant_term }

/-- Placeholder used as the getD default for out-of-range row reads. -/
def defaultHyperplane : Hyperplane :=
  { dimension := 0, normal_vector := [], constant_term := 0 }

/-- Line.first_nonzero_index: the index of the first non-near-zero entry;
the NO_NONZERO_ELTS_FOUND_MSG exception is modelled as none. -/
def first_nonzero_index : List ℚ → Option ℕ
  | [] => none
  | x :: xs =>
    if is_near_zero x then (first_nonzero_index xs).map (fun k => k + 1) else some 0

/-- LinearSystem: the ordered row sequence and the dimension attribute
recorded at construction. -/
structure LinearSystem where
  planes : List Hyperplane
  dimension : ℕ
deriving DecidableEq, Repr

def ALL_PLANES_MUST_BE_IN_SAME_DIM_MSG : String :=
  "All planes in the system should live in the same dimension"

def NO_SOLUTIONS_MSG : String :=
  "No solutions"

def INF_SOLUTIONS_MSG : String :=
  "Infinitely many solutions"

def INDEX_ERROR_MSG : String :=
  "IndexError"

def BASEPT_AND_DIR_VECTORS_MUST_BE_IN_SAME_DIM_MSG : String :=
  "The basepoint and direction vectors should all live in the same dimension"

/-- LinearSystem.__init__: reads the dimension of the first plane (an empty
input raises an uncaught IndexError), asserts every plane has that
dimension, and otherwise raises ALL_PLANES_MUST_BE_IN_SAME_DIM_MSG. -/
def linearSystemInit (planes : List Hyperplane) : Except String LinearSystem :=
  match planes with
  | [] => Except.error INDEX_ERROR_MSG
  | p :: _ =>
    if planes.all (fun q => q.dimension == p.dimension) then
      Except.ok { planes := planes, dimension := p.dimension }
    else
      Except.error ALL_PLANES_MUST_BE_IN_SAME_DIM_MSG

/-- self[i].normal_vector.coordinates[j]. -/
def coefAt (s : LinearSystem) (i j : ℕ) : ℚ :=
  ((s.planes.getD i defaultHyperplane).normal_vector).getD j 0

/-- Replace the row list of a system, keeping its dimension attribute. -/
def setPlanes (s : LinearSystem) (l : List Hyperplane) : LinearSystem :=
  { s with planes := l }

/-- LinearSystem.swap_rows: the tuple assignment
self[row1], self[row2] = self[row2], self[row1] (both reads happen first). -/
def swap_rows (s : LinearSystem) (row1 row2 : ℕ) : LinearSystem :=
  setPlanes s
    ((s.planes.set row1 (s.planes.getD row2 defaultHyperplane)).set row2
      (s.planes.getD row1 defaultHyperplane))

/-- LinearSystem.multiply_coefficient_and_row: builds a NEW Plane (whose
dimension attribute is therefore 3) from the scaled normal vector and scaled
constant term and stores it with a direct list assignment
self.planes[row] = ..., which performs no dimension check. -/
def multiply_coefficient_and_row (s : LinearSystem) (coefficient : ℚ) (row : ℕ) :
    LinearSystem :=
  let p := s.planes.getD row defaultHyperplane
  setPlanes s
    (s.planes.set row
      (mkPlane (p.normal_vector.map (fun x => x * coefficient))
        (p.constant_term * coefficient)))

/-- LinearSystem.__setitem__: asserts the dimension of the new row equals the
engine dimension and raises ALL_PLANES_MUST_BE_IN_SAME_DIM_MSG otherwise. -/
def setitem_checked (s : LinearSystem) (i : ℕ) (x : Hyperplane) :
    Except String LinearSystem :=
  if x.dimension == s.dimension then
    Except.ok (setPlanes s (s.planes.set i x))
  else
    Except.error ALL_PLANES_MUST_BE_IN_SAME_DIM_MSG

/-- LinearSystem.add_multiple_times_row_to_row: builds a new Plane from
n1 * coefficient + n2 and k1 * coefficient + k2 and stores it at the target
row.  (The store goes through __setitem__; the new Plane has dimension 3, so
on the dimension-3 systems the pipeline runs on the assert always passes, and
the assignment is modelled as unconditional here; setitem_checked models the
assert itself.) -/
def add_multiple_times_row_to_row (s : LinearSystem) (coefficient : ℚ)
    (row_to_add row_target : ℕ) : LinearSystem :=
  let p1 := s.planes.getD row_to_add defaultHyperplane
  let p2 := s.planes.getD row_target defaultHyperplane
  setPlanes s
    (s.planes.set row_target
      (mkPlane
        (List.zipWith (fun a b => a + b)
          (p1.normal_vector.map (fun x => x * coefficient)) p2.normal_vector)
        (p1.constant_term * coefficient + p2.constant_term)))

/-- LinearSystem.clear_coefficients_below: for i in range(row+1, len(self)),
combine the pivot row into row i when the coefficient there is not
near-zero.  The Python range object is computed up front, hence the foldl
over a fixed index list. -/
def clear_coefficients_below (s : LinearSystem) (row j : ℕ) : LinearSystem :=
  let curr_coef := coefAt s row j
  (List.range' (row + 1) (s.planes.length - (row + 1))).foldl
    (fun acc i =>
      let row_coef := coefAt acc i j
      if is_near_zero row_coef then acc
      else add_multiple_times_row_to_row acc (-row_coef / curr_coef) row i)
    s

/-- LinearSystem.clear_coefficients_above: for i in range(row-1, -1, -1),
combine the pivot row into row i when the coefficient there is not
near-zero. -/
def clear_coefficients_above (s : LinearSystem) (row j : ℕ) : LinearSystem :=
  let curr_coef := coefAt s row j
  ((List.range row).reverse).foldl
    (fun acc i =>
      let row_coef := coefAt acc i j
      if is_near_zero row_coef then acc
      else add_multiple_times_row_to_row acc (-row_coef / curr_coef) row i)
    s

/-- The scan of LinearSystem.swap_with_row_below_for_nonzero_coefficient over
the index list range(row_above, len(self)): the first index with a
non-near-zero coefficient in the given column is swapped into position
row_above, returning True; otherwise False with the system unchanged. -/
def swap_scan (s : LinearSystem) (row_above j : ℕ) : List ℕ → LinearSystem × Bool
  | [] => (s, false)
  | i :: rest =>
    if is_near_zero (coefAt s i j) then swap_scan s row_above j rest
    else (swap_rows s row_above i, true)

/-- LinearSystem.swap_with_row_below_for_nonzero_coefficient. -/
def swap_with_row_below_for_nonzero_coefficient (s : LinearSystem)
    (row_above j : ℕ) : LinearSystem × Bool :=
  swap_scan s row_above j (List.range' row_above (s.planes.length - row_above))

/-- One row of the forward-elimination loop of compute_triangular_form: the
while j < num_variables loop.  The loop advances j by one each iteration and
stops at num_variables, so num_variables - j is used as structural fuel; the
guard j < num_variables is kept verbatim. -/
def tf_while_go : ℕ → LinearSystem → ℕ → ℕ → ℕ → LinearSystem × ℕ
  | 0, s, _, j, _ => (s, j)
  | fuel + 1, s, row, j, num_variables =>
    if j < num_variables then
      let curr_coef := coefAt s row j
      if is_near_zero curr_coef then
        let res := swap_with_row_below_for_nonzero_coefficient s row j
        if res.2 then (clear_coefficients_below res.1 row j, j + 1)
        else tf_while_go fuel res.1 row (j + 1) num_variables
      else (clear_coefficients_below s row j, j + 1)
    else (s, j)

/-- The while loop of compute_triangular_form for one value of row, started
at column cursor j. -/
def tf_while (s : LinearSystem) (row j num_variables : ℕ) : LinearSystem × ℕ :=
  tf_while_go (num_variables - j) s row j num_variables

/-- The for row in range(num_equations) loop of compute_triangular_form,
threading the shared column cursor j across rows. -/
def tf_for (num_variables : ℕ) : List ℕ → LinearSystem → ℕ → LinearSystem
  | [], s, _ => s
  | row :: rest, s, j =>
    let res := tf_while s row j num_variables
    tf_for num_variables rest res.1 res.2

/-- LinearSystem.compute_triangular_form: system = deepcopy(self) is value
passing here; the loops then operate on the copy. -/
def compute_triangular_form (self : LinearSystem) : LinearSystem :=
  tf_for self.dimension (List.range self.planes.length) self 0

/-- LinearSystem.indices_of_first_nonzero_terms_in_each_row: -1 marks a row
whose scan raised NO_NONZERO_ELTS_FOUND_MSG. -/
def indices_of_first_nonzero_terms_in_each_row (s : LinearSystem) : List ℤ :=
  s.planes.map (fun p =>
    match first_nonzero_index p.normal_vector with
    | some k => (k : ℤ)
    | none => -1)

/-- LinearSystem.scale_row_to_make_coefficient_equal_to_one. -/
def scale_row_to_make_coefficient_equal_to_one (s : LinearSystem) (row j : ℕ) :
    LinearSystem :=
  multiply_coefficient_and_row s (1 / coefAt s row j) row

/-- LinearSystem.compute_rref: triangular form first, then for row in
range(num_equations-1, -1, -1) scale the pivot row and clear above, skipping
rows whose pivot index is -1.  The pivot indices are computed once, from the
triangular form. -/
def compute_rref (self : LinearSystem) : LinearSystem :=
  let tf := compute_triangular_form self
  let pivot_indices := indices_of_first_nonzero_terms_in_each_row tf
  ((List.range self.planes.length).reverse).foldl
    (fun acc row =>
      let j := pivot_indices.getD row (-1)
      if j < 0 then acc
      else
        clear_coefficients_above
          (scale_row_to_make_coefficient_equal_to_one acc row j.toNat) row j.toNat)
    tf

/-- LinearSystem.raise_exception_if_contradictory_equations raises
NO_SOLUTIONS_MSG exactly when some row has no non-near-zero normal
coefficient and a non-near-zero constant term; the raise is modelled as this
Bool. -/
def has_contradictory_equation (s : LinearSystem) : Bool :=
  s.planes.any (fun p =>
    (first_nonzero_index p.normal_vector).isNone && !(is_near_zero p.constant_term))

/-- The row loop of extract_basepoint_for_parametrization: rows are scanned
top-down and the loop BREAKS at the first row whose pivot index is -1;
each scanned row writes its constant term at its pivot column. -/
def basepoint_go : List ℚ → List (Hyperplane × ℤ) → List ℚ
  | coords, [] => coords
  | coords, (p, pivot_var) :: rest =>
    if pivot_var < 0 then coords
    else basepoint_go (coords.set pivot_var.toNat p.constant_term) rest

/-- LinearSystem.extract_basepoint_for_parametrization. -/
def extract_basepoint_for_parametrization (s : LinearSystem) : List ℚ :=
  let num_variables := s.dimension
  let pivot_indices := indices_of_first_nonzero_terms_in_each_row s
  basepoint_go (List.replicate num_variables (0 : ℚ)) (s.planes.zip pivot_indices)

/-- The row loop of extract_direction_vectors_for_parametrization for one
free column: rows are scanned top-down and the loop BREAKS at the first row
whose pivot index is -1; each scanned row writes the negation of its
coefficient at the free column at its pivot column. -/
def direction_go (free_var : ℕ) : List ℚ → List (Hyperplane × ℤ) → List ℚ
  | coords, [] => coords
  | coords, (p, pivot_var) :: rest =>
    if pivot_var < 0 then coords
    else
      direction_go free_var
        (coords.set pivot_var.toNat (-(p.normal_vector.getD free_var 0))) rest

/-- LinearSystem.extract_direction_vectors_for_parametrization.  The free
columns are set(range(num_variables)) - set(pivot_indices); CPython iterates
a set of small nonnegative ints in ascending order (int hashing is identity
and deterministic), modelled by the ascending filter. -/
def extract_direction_vectors_for_parametrization (s : LinearSystem) :
    List (List ℚ) :=
  let num_variables := s.dimension
  let pivot_indices := indices_of_first_nonzero_terms_in_each_row s
  let free_variables_indices :=
    (List.range num_variables).filter (fun c => !(pivot_indices.contains (Int.ofNat c)))
  free_variables_indices.map (fun free_var =>
    direction_go free_var ((List.replicate num_variables (0 : ℚ)).set free_var 1)
      (s.planes.zip pivot_indices))

/-- Parametrization: a basepoint and the free-direction vectors. -/
structure Parametrization where
  basepoint : List ℚ
  direction_vectors : List (List ℚ)
deriving DecidableEq, Repr

/-- Parametrization.__init__: asserts every direction vector has the same
dimension (coordinate length) as the basepoint. -/
def parametrizationInit (basepoint : List ℚ) (direction_vectors : List (List ℚ)) :
    Except String Parametrization :=
  if direction_vectors.all (fun v => v.length == basepoint.length) then
    Except.ok { basepoint := basepoint, direction_vectors := direction_vectors }
  else
    Except.error BASEPT_AND_DIR_VECTORS_MUST_BE_IN_SAME_DIM_MSG

/-- LinearSystem.do_gaussian_elimination_and_parametrize_solution. -/
def do_gaussian_elimination_and_parametrize_solution (self : LinearSystem) :
    Except String Parametrization :=
  let rref := compute_rref self
  if has_contradictory_equation rref then Except.error NO_SOLUTIONS_MSG
  else
    parametrizationInit (extract_basepoint_for_parametrization rref)
      (extract_direction_vectors_for_parametrization rref)

/-- The two regular outcomes of compute_solution: the NO_SOLUTIONS_MSG string
or a Parametrization object. -/
inductive SolutionResult where
  | noSolution : SolutionResult
  | solution : Parametrization → SolutionResult
deriving DecidableEq, Repr

instance instDecEqExcept {ε α : Type} [DecidableEq ε] [DecidableEq α] :
    DecidableEq (Except ε α)
  | Except.ok a, Except.ok b =>
    match decEq a b with
    | isTrue h => isTrue (congrArg Except.ok h)
    | isFalse h => isFalse (fun hh => h (Except.ok.inj hh))
  | Except.ok _, Except.error _ => isFalse (fun hh => Except.noConfusion hh)
  | Except.error _, Except.ok _ => isFalse (fun hh => Except.noConfusion hh)
  | Except.error e, Except.error f =>
    match decEq e f with
    | isTrue h => isTrue (congrArg Except.error h)
    | isFalse h => isFalse (fun hh => h (Except.error.inj hh))

/-- LinearSystem.compute_solution: catches an exception whose message is
NO_SOLUTIONS_MSG and returns it as a regular value; any other exception is
re-raised (the Except.error case). -/
def compute_solution (self : LinearSystem) : Except String SolutionResult :=
  match do_gaussian_elimination_and_parametrize_solution self with
  | Except.ok p => Except.ok (SolutionResult.solution p)
  | Except.error e =>
    if e == NO_SOLUTIONS_MSG then Except.ok SolutionResult.noSolution
    else Except.error e

/-- Engine construction followed by compute_solution, as a function of the
caller-supplied input sequence. -/
def compute_solution_from_input (planes : List Hyperplane) :
    Except String (Except String SolutionResult) :=
  match linearSystemInit planes with
  | Except.ok s => Except.ok (compute_solution s)
  | Except.error e => Except.error e

/-- Vector.dot. -/
def dot (xs ys : List ℚ) : ℚ := (List.zipWith (fun a b => a * b) xs ys).sum

/-- compute_triangular_form as a method call on an engine object: the pair of
the returned value and the post-call state of self.  The source deepcopies
self and mutates only the copy, so the self component comes back untouched. -/
def compute_triangular_form_method (self : LinearSystem) :
    LinearSystem × LinearSystem :=
  (compute_triangular_form self, self)

/-- compute_rref as a method call: result and post-call state of self. -/
def compute_rref_method (self : LinearSystem) : LinearSystem × LinearSystem :=
  (compute_rref self, self)

/-- compute_solution as a method call: result and post-call state of self. -/
def compute_solution_method (self : LinearSystem) :
    Except String SolutionResult × LinearSystem :=
  (compute_solution self, self)

/-- The first row strictly below row with a non-near-zero coefficient in
column j, if any. -/
def find_pivot_below (s : LinearSystem) (row j : ℕ) : Option ℕ :=
  (List.range' (row + 1) (s.planes.length - (row + 1))).find?
    (fun i => !(is_near_zero (coefAt s i j)))

/-- Once a pivot index of -1 appears in the per-row pivot list, every later
entry is negative as well: the pivot-less rows form a suffix. -/
def no_pivot_after : List ℤ → Bool
  | [] => true
  | z :: rest =>
    if z < 0 then rest.all (fun w => decide (w < 0)) else no_pivot_after rest

/-- All pivot-less rows of the system sit below all pivot rows. -/
def pivotless_rows_last (s : LinearSystem) : Bool :=
  no_pivot_after (indices_of_first_nonzero_terms_in_each_row s)

/-- The pivot columns of the leading pivot rows, read off the per-row pivot
index list up to the first -1 entry. -/
def lead_pivots : List ℤ → List ℕ
  | [] => []
  | z :: rest => if z < 0 then [] else z.toNat :: lead_pivots rest

/-- A system in reduced row-echelon form in the tolerance-aware sense of the
specification, with its pivot-less rows at the bottom: ps lists the pivot
columns (first non-near-zero coefficient) of the leading rows, strictly
increasing; each pivot coefficient is exactly 1, every other row is
near-zero in each pivot column, and all remaining rows have no pivot at all
(every coefficient near-zero).  Rows are dimension-3 Plane objects, as
everywhere in the pipeline. -/
structure SpecRrefShape (s : LinearSystem) (ps : List ℕ) : Prop where
  num_rows : ps.length ≤ s.planes.length
  mono : List.Pairwise (fun a b => a < b) ps
  lt_dim : ∀ i, i < ps.length → ps.getD i 0 < s.dimension
  fnz : ∀ i, i < ps.length →
    first_nonzero_index ((s.planes.getD i defaultHyperplane).normal_vector) =
      some (ps.getD i 0)
  pivot_one : ∀ i, i < ps.length → coefAt s i (ps.getD i 0) = 1
  unit_col : ∀ i, i < ps.length → ∀ r, r < s.planes.length → r ≠ i →
    is_near_zero (coefAt s r (ps.getD i 0)) = true
  zero_rows : ∀ r, r < s.planes.length → ps.length ≤ r →
    first_nonzero_index ((s.planes.getD r defaultHyperplane).normal_vector) = none
  dims3 : ∀ p ∈ s.planes, p.dimension = 3

/-- Well-formedness of a system as the Python pipeline actually receives it:
every row is a Plane (dimension attribute 3) whose normal vector has exactly
the engine dimension many coordinates, so no list indexing is out of range. -/
def SystemWf (s : LinearSystem) : Bool :=
  s.planes.all (fun p =>
    p.dimension == 3 && p.normal_vector.length == s.dimension)

/-! Definitions written from the words of the specification, for comparison
with the embedded source functions. -/

/-- The basepoint as the specification words it: an all-zero vector of size
dimension; for each row with a valid pivot column p, coordinate p is set to
that row's constant term; rows without a pivot contribute nothing (no early
stop). -/
def claimed_basepoint (s : LinearSystem) : List ℚ :=
  let pivot_indices := indices_of_first_nonzero_terms_in_each_row s
  (s.planes.zip pivot_indices).foldl
    (fun coords q =>
      if q.2 < 0 then coords else coords.set q.2.toNat q.1.constant_term)
    (List.replicate s.dimension (0 : ℚ))

/-- The direction vectors as the specification words them: for each free
column f in ascending order, a zero vector with coordinate f set to 1 and,
for EVERY row with a pivot column p, coordinate p set to the negation of
that row's coefficient at column f (no early stop). -/
def claimed_direction_vectors (s : LinearSystem) : List (List ℚ) :=
  let pivot_indices := indices_of_first_nonzero_terms_in_each_row s
  let free_variables_indices :=
    (List.range s.dimension).filter (fun c => !(pivot_indices.contains (Int.ofNat c)))
  free_variables_indices.map (fun free_var =>
    (s.planes.zip pivot_indices).foldl
      (fun coords q =>
        if q.2 < 0 then coords
        else coords.set q.2.toNat (-(q.1.normal_vector.getD free_var 0)))
      ((List.replicate s.dimension (0 : ℚ)).set free_var 1))

/-- The prefix of rows the source extraction loops actually visit: the zip of
rows with their pivot indices, cut at the first row whose pivot index is -1. -/
def scanned_rows (s : LinearSystem) : List (Hyperplane × ℤ) :=
  (s.planes.zip (indices_of_first_nonzero_terms_in_each_row s)).takeWhile
    (fun q => !(decide (q.2 < 0)))

/-- The basepoint restricted to the scanned prefix (the amended reading). -/
def amended_basepoint (s : LinearSystem) : List ℚ :=
  (scanned_rows s).foldl
    (fun coords q => coords.set q.2.toNat q.1.constant_term)
    (List.replicate s.dimension (0 : ℚ))

/-- The direction vectors restricted to the scanned prefix (the amended
reading), still one vector per free column in ascending order. -/
def amended_direction_vectors (s : LinearSystem) : List (List ℚ) :=
  let pivot_indices := indices_of_first_nonzero_terms_in_each_row s
  let free_variables_indices :=
    (List.range s.dimension).filter (fun c => !(pivot_indices.contains (Int.ofNat c)))
  free_variables_indices.map (fun free_var =>
    (scanned_rows s).foldl
      (fun coords q => coords.set q.2.toNat (-(q.1.normal_vector.getD free_var 0)))
      ((List.replicate s.dimension (0 : ℚ)).set free_var 1))

/-- Strict increase of a list of pivot indices, row over row. -/
def strictly_increasing : List ℤ → Bool
  | [] => true
  | [_] => true
  | a :: b :: rest => decide (a < b) && strictly_increasing (b :: rest)

/-- The specification notion of a system in reduced row-echelon form
(glossary and testable-properties sections): every row with a pivot has
pivot coefficient 1, the pivot column has near-zero coefficients in every
other row, and pivot columns are strictly increasing among the rows that
have a pivot.  Rows without a pivot may sit anywhere. -/
def spec_is_rref (s : LinearSystem) : Bool :=
  let piv := indices_of_first_nonzero_terms_in_each_row s
  ((List.range s.planes.length).all (fun i =>
    let pv := piv.getD i (-1)
    if pv < 0 then true
    else
      (coefAt s i pv.toNat == 1) &&
        (List.range s.planes.length).all (fun r =>
          r == i || is_near_zero (coefAt s r pv.toNat)))) &&
    strictly_increasing (piv.filter (fun z => decide (0 ≤ z)))

/-- Row-by-row closeness of two systems within the 1e-10 tolerance. -/
def within_tolerance (s t : LinearSystem) : Bool :=
  (s.planes.length == t.planes.length) &&
    (List.range s.planes.length).all (fun i =>
      let p := s.planes.getD i defaultHyperplane
      let q := t.planes.getD i defaultHyperplane
      (p.normal_vector.length == q.normal_vector.length) &&
        (List.range p.normal_vector.length).all (fun c =>
          is_near_zero (coefAt s i c - coefAt t i c)) &&
        is_near_zero (p.constant_term - q.constant_term))

/-! Concrete systems used by the counterexamples and witnesses. -/

/-- 9e-11: a nonzero value strictly inside the 1e-10 tolerance. -/
def alphaQ : ℚ := 9 / 100000000000

/-- A consistent 3-variable system on which elimination amplifies the
near-zero coefficient alphaQ of column 0 into the non-near-zero -2*alphaQ,
so that the final RREF carries a pivot row BELOW a pivot-less row. -/
def cexPlanes : List Hyperplane :=
  [mkPlane [alphaQ, 1, 0] 1, mkPlane [alphaQ, 1, 0] 1, mkPlane [alphaQ, 3, alphaQ] 1]

def cexSystem : LinearSystem := { planes := cexPlanes, dimension := 3 }

def cexRref : LinearSystem := compute_rref cexSystem

/-- A dimension-2 engine built from two Line rows; accepted at construction. -/
def lineSystem2 : LinearSystem :=
  { planes := [mkLine [1, 0] 1, mkLine [0, 1] 2], dimension := 2 }

/-- A small dimension-3 system for concrete witnesses. -/
def demoSystem : LinearSystem :=
  { planes := [mkPlane [1, 0, 0] 1, mkPlane [0, 1, 0] 2], dimension := 3 }

/-- The result of a checked replacement of row 0 of demoSystem. -/
def demoSetSystem : LinearSystem :=
  { planes := [mkPlane [9, 9, 9] 9, mkPlane [0, 1, 0] 2], dimension := 3 }

/-- A system whose first row has a near-zero leading coefficient. -/
def demoSwapSystem : LinearSystem :=
  { planes := [mkPlane [0, 1, 0] 1, mkPlane [1, 0, 0] 2], dimension := 3 }

/-- A system that satisfies the specification reading of reduced
row-echelon form (pivot coefficients 1, pivot columns otherwise near-zero,
pivot columns strictly increasing row over row) but carries its pivot-less
row in the middle. -/
def rrefFixture : LinearSystem :=
  { planes := [mkPlane [1, 0, 0] 5, mkPlane [0, 0, 0] 0, mkPlane [0, 1, 0] 7],
    dimension := 3 }

/-- A reduced row-echelon system in the tolerance-aware sense, with
within-tolerance noise (alphaQ = 9e-11) off the pivots, a nonzero constant
on the pivot-less bottom row, and that pivot-less row at the bottom. -/
def noisyRrefFixture : LinearSystem :=
  { planes :=
      [mkPlane [1, 0, alphaQ] 5, mkPlane [alphaQ, 1, 0] 7,
        mkPlane [alphaQ, alphaQ, alphaQ] 4],
    dimension := 3 }

/-- Scenario A of the specification: two parallel planes with inconsistent
constants (exact decimal rationals). -/
def scenarioA : LinearSystem :=
  { planes :=
      [mkPlane [5862/1000, 1178/1000, -10366/1000] (-8150/1000),
        mkPlane [-2931/1000, -589/1000, 5183/1000] (-4075/1000)],
    dimension := 3 }

/-! Fidelity checks: the embedding reproduces the expected values asserted
by the test block of src/linear_system.py. -/

def tcase (a b c k : ℚ) : Hyperplane := mkPlane [a, b, c] k

example :
    compute_triangular_form { planes := [tcase 1 1 1 1, tcase 0 1 1 2], dimension := 3 } =
      { planes := [tcase 1 1 1 1, tcase 0 1 1 2], dimension := 3 } := by decide

example :
    compute_triangular_form { planes := [tcase 1 1 1 1, tcase 1 1 1 2], dimension := 3 } =
      { planes := [tcase 1 1 1 1, tcase 0 0 0 1], dimension := 3 } := by decide

example :
    compute_triangular_form
        { planes := [tcase 1 1 1 1, tcase 0 1 0 2, tcase 1 1 (-1) 3, tcase 1 0 (-2) 2],
          dimension := 3 } =
      { planes := [tcase 1 1 1 1, tcase 0 1 0 2, tcase 0 0 (-2) 2, tcase 0 0 0 0],
        dimension := 3 } := by decide

example :
    compute_triangular_form
        { planes := [tcase 0 1 1 1, tcase 1 (-1) 1 2, tcase 1 2 (-5) 3], dimension := 3 } =
      { planes := [tcase 1 (-1) 1 2, tcase 0 1 1 1, tcase 0 0 (-9) (-2)], dimension := 3 } := by
  decide

example :
    compute_rref { planes := [tcase 1 1 1 1, tcase 0 1 1 2], dimension := 3 } =
      { planes := [tcase 1 0 0 (-1), tcase 0 1 1 2], dimension := 3 } := by decide

example :
    compute_rref
        { planes := [tcase 0 1 1 1, tcase 1 (-1) 1 2, tcase 1 2 (-5) 3], dimension := 3 } =
      { planes := [tcase 1 0 0 (23/9), tcase 0 1 0 (7/9), tcase 0 0 1 (2/9)],
        dimension := 3 } := by decide

/-! Evaluation of the pathological fixture: the RREF carries a pivot row
below a pivot-less row, the system is consistent, and the source extraction
differs from the claimed extraction. -/

example :
    cexRref =
      { planes :=
          [mkPlane [alphaQ, 1, 0] 1, mkPlane [0, 0, 0] 0,
            mkPlane [1, 0, -1/2] (100000000000 / 9)],
        dimension := 3 } := by decide

example : has_contradictory_equation cexRref = false := by decide

example : extract_basepoint_for_parametrization cexRref = [0, 1, 0] := by decide

example : claimed_basepoint cexRref = [100000000000 / 9, 1, 0] := by decide

example : extract_direction_vectors_for_parametrization cexRref = [[0, 0, 1]] := by decide

example : claimed_direction_vectors cexRref = [[1/2, 0, 1]] := by decide

example :
    compute_solution cexSystem =
      Except.ok (SolutionResult.solution
        { basepoint := [0, 1, 0], direction_vectors := [[0, 0, 1]] }) := by decide

example :
    dot (cexPlanes.getD 2 defaultHyperplane).normal_vector [0, 1, 0] = 3 := by decide

/-! Helper lemmas. -/

theorem getD_set_self {α : Type} (l : List α) (i : ℕ) (d : α) :
    l.set i (l.getD i d) = l := by
  induction l generalizing i with
  | nil => rfl
  | cons a t ih =>
    cases i with
    | zero => rfl
    | succ i => simp only [List.getD_cons_succ, List.set_cons_succ, ih]

theorem getD_mem_of_lt {α : Type} (l : List α) (i : ℕ) (d : α)
    (h : i < l.length) : l.getD i d ∈ l := by
  induction l generalizing i with
  | nil => simp at h
  | cons a t ih =>
    cases i with
    | zero => exact List.mem_cons_self a t
    | succ i =>
      exact List.mem_cons_of_mem a (ih i (by simpa using h))

theorem getD_map_lt {α β : Type} (f : α → β) (l : List α) (i : ℕ) (d : β)
    (d0 : α) (h : i < l.length) : (l.map f).getD i d = f (l.getD i d0) := by
  induction l generalizing i with
  | nil => simp at h
  | cons a t ih =>
    cases i with
    | zero => rfl
    | succ i =>
      simp only [List.map_cons, List.getD_cons_succ]
      exact ih i (by simpa using h)

theorem foldl_fixed {α β : Type} (f : α → β → α) (s : α) (l : List β)
    (h : ∀ x ∈ l, f s x = s) : l.foldl f s = s := by
  induction l with
  | nil => rfl
  | cons a t ih =>
    rw [List.foldl_cons, h a (List.mem_cons_self a t)]
    exact ih (fun x hx => h x (List.mem_cons_of_mem a hx))

theorem basepoint_go_length (coords : List ℚ) (l : List (Hyperplane × ℤ)) :
    (basepoint_go coords l).length = coords.length := by
  induction l generalizing coords with
  | nil => rfl
  | cons q rest ih =>
    obtain ⟨p, pv⟩ := q
    simp only [basepoint_go]
    split
    · rfl
    · rw [ih, List.length_set]

theorem direction_go_length (f : ℕ) (coords : List ℚ) (l : List (Hyperplane × ℤ)) :
    (direction_go f coords l).length = coords.length := by
  induction l generalizing coords with
  | nil => rfl
  | cons q rest ih =>
    obtain ⟨p, pv⟩ := q
    simp only [direction_go]
    split
    · rfl
    · rw [ih, List.length_set]

theorem extract_basepoint_length (s : LinearSystem) :
    (extract_basepoint_for_parametrization s).length = s.dimension := by
  unfold extract_basepoint_for_parametrization
  rw [basepoint_go_length, List.length_replicate]

theorem extract_direction_vectors_length (s : LinearSystem) :
    ∀ v ∈ extract_direction_vectors_for_parametrization s,
      v.length = s.dimension := by
  unfold extract_direction_vectors_for_parametrization
  intro v hv
  obtain ⟨f, _, rfl⟩ := List.mem_map.mp hv
  rw [direction_go_length, List.length_set, List.length_replicate]

theorem parametrizationInit_ok (b : List ℚ) (d : List (List ℚ))
    (h : ∀ v ∈ d, v.length = b.length) :
    parametrizationInit b d = Except.ok { basepoint := b, direction_vectors := d } := by
  unfold parametrizationInit
  rw [if_pos]
  exact List.all_eq_true.mpr (fun v hv => beq_iff_eq.mpr (h v hv))

theorem do_gaussian_of_consistent (s : LinearSystem)
    (h : has_contradictory_equation (compute_rref s) = false) :
    do_gaussian_elimination_and_parametrize_solution s =
      Except.ok
        { basepoint := extract_basepoint_for_parametrization (compute_rref s),
          direction_vectors :=
            extract_direction_vectors_for_parametrization (compute_rref s) } := by
  simp only [do_gaussian_elimination_and_parametrize_solution, h,
    Bool.false_eq_true, if_false]
  apply parametrizationInit_ok
  intro v hv
  rw [extract_basepoint_length]
  exact extract_direction_vectors_length _ v hv

theorem basepoint_go_eq_takeWhile (coords : List ℚ) (l : List (Hyperplane × ℤ)) :
    basepoint_go coords l =
      (l.takeWhile (fun q => !(decide (q.2 < 0)))).foldl
        (fun coords q => coords.set q.2.toNat q.1.constant_term) coords := by
  induction l generalizing coords with
  | nil => rfl
  | cons q rest ih =>
    obtain ⟨p, pv⟩ := q
    by_cases hpv : pv < 0
    · have h2 : List.takeWhile (fun q : Hyperplane × ℤ => !(decide (q.2 < 0)))
          ((p, pv) :: rest) = [] := by
        simp [List.takeWhile_cons, hpv]
      rw [h2]
      simp [basepoint_go, hpv]
    · have h2 : List.takeWhile (fun q : Hyperplane × ℤ => !(decide (q.2 < 0)))
          ((p, pv) :: rest) =
          (p, pv) :: List.takeWhile (fun q : Hyperplane × ℤ => !(decide (q.2 < 0))) rest := by
        simp [List.takeWhile_cons, hpv]
      rw [h2, List.foldl_cons]
      rw [show basepoint_go coords ((p, pv) :: rest) =
        basepoint_go (coords.set pv.toNat p.constant_term) rest by
          simp [basepoint_go, hpv]]
      exact ih _

theorem direction_go_eq_takeWhile (f : ℕ) (coords : List ℚ)
    (l : List (Hyperplane × ℤ)) :
    direction_go f coords l =
      (l.takeWhile (fun q => !(decide (q.2 < 0)))).foldl
        (fun coords q => coords.set q.2.toNat (-(q.1.normal_vector.getD f 0)))
        coords := by
  induction l generalizing coords with
  | nil => rfl
  | cons q rest ih =>
    obtain ⟨p, pv⟩ := q
    by_cases hpv : pv < 0
    · have h2 : List.takeWhile (fun q : Hyperplane × ℤ => !(decide (q.2 < 0)))
          ((p, pv) :: rest) = [] := by
        simp [List.takeWhile_cons, hpv]
      rw [h2]
      simp [direction_go, hpv]
    · have h2 : List.takeWhile (fun q : Hyperplane × ℤ => !(decide (q.2 < 0)))
          ((p, pv) :: rest) =
          (p, pv) :: List.takeWhile (fun q : Hyperplane × ℤ => !(decide (q.2 < 0))) rest := by
        simp [List.takeWhile_cons, hpv]
      rw [h2, List.foldl_cons]
      rw [show direction_go f coords ((p, pv) :: rest) =
        direction_go f (coords.set pv.toNat (-(p.normal_vector.getD f 0))) rest by
          simp [direction_go, hpv]]
      exact ih _

theorem swap_scan_eq_find (s : LinearSystem) (row j : ℕ) (l : List ℕ) :
    swap_scan s row j l =
      (match l.find? (fun i => !(is_near_zero (coefAt s i j))) with
       | some i => (swap_rows s row i, true)
       | none => (s, false)) := by
  induction l with
  | nil => rfl
  | cons i rest ih =>
    cases h : is_near_zero (coefAt s i j) with
    | true =>
      rw [List.find?_cons_of_neg _ (by simp [h])]
      rw [show swap_scan s row j (i :: rest) = swap_scan s row j rest by
        simp [swap_scan, h]]
      exact ih
    | false =>
      rw [List.find?_cons_of_pos _ (by simp [h])]
      simp [swap_scan, h]

/-! Claim theorems. -/

/-- C10: every constructed Plane reports dimension exactly 3 and every
constructed Line reports dimension exactly 2, regardless of the coordinate
length of the supplied normal vector; consequently an engine built from
Planes whose normal vectors have differing coordinate lengths is accepted
without the dimension-mismatch failure. -/
theorem C10_plane_line_dimension_constant :
    (∀ nv c, (mkPlane nv c).dimension = 3) ∧
    (∀ nv c, (mkLine nv c).dimension = 2) ∧
    (mkPlane [1, 0] 1).normal_vector.length ≠
      (mkPlane [1, 0, 0] 2).normal_vector.length ∧
    linearSystemInit [mkPlane [1, 0] 1, mkPlane [1, 0, 0] 2] =
      Except.ok
        { planes := [mkPlane [1, 0] 1, mkPlane [1, 0, 0] 2], dimension := 3 } := by
  exact ⟨fun nv c => rfl, fun nv c => rfl, by decide, by decide⟩

/-- C9: compute_solution is deterministic: engine construction followed by
compute_solution on equal input sequences yields equal results (the free
columns being iterated in the fixed ascending order of the embedding, which
is the deterministic CPython small-int set iteration order). -/
theorem C9_compute_solution_deterministic (planes1 planes2 : List Hyperplane)
    (h : planes1 = planes2) :
    compute_solution_from_input planes1 = compute_solution_from_input planes2 := by
  rw [h]

/-- Witness for C9 at a concrete input sequence. -/
theorem C9_compute_solution_deterministic_witness :
    [mkPlane [1, 1, 1] 1, mkPlane [0, 1, 0] 2] =
      [mkPlane [1, 1, 1] 1, mkPlane [0, 1, 0] 2] ∧
    compute_solution_from_input [mkPlane [1, 1, 1] 1, mkPlane [0, 1, 0] 2] =
      compute_solution_from_input [mkPlane [1, 1, 1] 1, mkPlane [0, 1, 0] 2] :=
  ⟨rfl, C9_compute_solution_deterministic _ _ rfl⟩

/-- C6: compute_triangular_form, compute_rref and compute_solution operate on
a private working copy (the source deepcopies self and the embedding passes
the engine state by value, mutating only the copy): the post-call state of
self, and with it every caller-supplied hyperplane, is unchanged. -/
theorem C6_private_working_copy (s : LinearSystem) :
    (compute_triangular_form_method s).2 = s ∧
    (compute_rref_method s).2 = s ∧
    (compute_solution_method s).2 = s ∧
    (compute_solution_method s).2.planes = s.planes :=
  ⟨rfl, rfl, rfl, rfl⟩

/-- C1 fails on the code: cexSystem is consistent (compute_solution returns a
parametrization), yet substituting the extracted basepoint (0, 1, 0) into
the third input hyperplane (alphaQ, 3, alphaQ) = 1 yields 3, a residual of
2, far outside the 1e-10 tolerance.  The extraction loops break at the first
pivot-less RREF row and skip the pivot row below it. -/
theorem C1_substitution_residual_at_cex :
    compute_solution cexSystem =
      Except.ok (SolutionResult.solution
        { basepoint := [0, 1, 0], direction_vectors := [[0, 0, 1]] }) ∧
    qabs (dot (cexPlanes.getD 2 defaultHyperplane).normal_vector [0, 1, 0] -
        (cexPlanes.getD 2 defaultHyperplane).constant_term) = 2 ∧
    ¬(qabs (dot (cexPlanes.getD 2 defaultHyperplane).normal_vector [0, 1, 0] -
        (cexPlanes.getD 2 defaultHyperplane).constant_term) < eps) := by
  exact ⟨by decide, by decide, by decide⟩

/-- C3 counterexample: construction of lineSystem2 succeeds, yet running
compute_rref on it leaves the engine with members of dimension 3 (the scale
replacement constructs a Plane and stores it without any check), so the
member-dimension invariant is violated during elimination, not at
construction time. -/
theorem C3_counterexample_scale_breaks_invariant :
    linearSystemInit [mkLine [1, 0] 1, mkLine [0, 1] 2] = Except.ok lineSystem2 ∧
    lineSystem2.planes.all (fun p => p.dimension == lineSystem2.dimension) = true ∧
    (compute_rref lineSystem2).planes.all
      (fun p => p.dimension == lineSystem2.dimension) = false ∧
    ((multiply_coefficient_and_row lineSystem2 1 0).planes.getD 0
        defaultHyperplane).dimension = 3 ∧
    lineSystem2.dimension = 2 := by
  exact ⟨by decide, by decide, by decide, by decide, by decide⟩

/-- C3 amended: construction over hyperplanes with disagreeing dimensions
fails with the dimension-mismatch condition; row swaps and checked row
replacements (combine goes through __setitem__) preserve the invariant that
every member dimension equals the engine dimension; the scale replacement
stores a freshly built dimension-3 Plane without a check, so it preserves
the invariant exactly on engines of dimension 3 (every engine actually built
from Planes). -/
theorem C3_amended_invariant :
    (∀ planes (p q : Hyperplane), p ∈ planes → q ∈ planes →
      p.dimension ≠ q.dimension →
      linearSystemInit planes = Except.error ALL_PLANES_MUST_BE_IN_SAME_DIM_MSG) ∧
    (∀ (s : LinearSystem) (r1 r2 : ℕ), r1 < s.planes.length → r2 < s.planes.length →
      (∀ p ∈ s.planes, p.dimension = s.dimension) →
      ∀ p ∈ (swap_rows s r1 r2).planes, p.dimension = (swap_rows s r1 r2).dimension) ∧
    (∀ (s s2 : LinearSystem) (i : ℕ) (x : Hyperplane),
      setitem_checked s i x = Except.ok s2 →
      (∀ p ∈ s.planes, p.dimension = s.dimension) →
      ∀ p ∈ s2.planes, p.dimension = s2.dimension) ∧
    (∀ (s : LinearSystem) (c : ℚ) (row : ℕ), s.dimension = 3 →
      (∀ p ∈ s.planes, p.dimension = s.dimension) →
      ∀ p ∈ (multiply_coefficient_and_row s c row).planes,
        p.dimension = (multiply_coefficient_and_row s c row).dimension) := by
  refine ⟨?_, ?_, ?_, ?_⟩
  · intro planes p q hp hq hne
    match planes with
    | [] => cases hp
    | a :: t =>
      simp only [linearSystemInit]
      rw [if_neg]
      intro hall
      have hap := List.all_eq_true.mp hall p hp
      have haq := List.all_eq_true.mp hall q hq
      exact hne ((beq_iff_eq.mp hap).trans (beq_iff_eq.mp haq).symm)
  · intro s r1 r2 h1 h2 hinv p hp
    simp only [swap_rows, setPlanes] at hp ⊢
    rcases List.mem_or_eq_of_mem_set hp with hp1 | rfl
    · rcases List.mem_or_eq_of_mem_set hp1 with hp2 | rfl
      · exact hinv p hp2
      · exact hinv _ (getD_mem_of_lt _ _ _ h2)
    · exact hinv _ (getD_mem_of_lt _ _ _ h1)
  · intro s s2 i x hset hinv p hp
    unfold setitem_checked at hset
    by_cases hdim : x.dimension == s.dimension
    · rw [if_pos hdim] at hset
      obtain rfl := Except.ok.inj hset
      simp only [setPlanes] at hp ⊢
      rcases List.mem_or_eq_of_mem_set hp with hp1 | rfl
      · exact hinv p hp1
      · exact beq_iff_eq.mp hdim
    · rw [if_neg hdim] at hset
      cases hset
  · intro s c row h3 hinv p hp
    simp only [multiply_coefficient_and_row, setPlanes] at hp ⊢
    rcases List.mem_or_eq_of_mem_set hp with hp1 | rfl
    · exact hinv p hp1
    · rw [h3]; rfl

/-- Witness for C3 amended at concrete inputs. -/
theorem C3_amended_invariant_witness :
    linearSystemInit [mkPlane [1, 0, 0] 1, mkLine [1, 0] 1] =
      Except.error ALL_PLANES_MUST_BE_IN_SAME_DIM_MSG ∧
    (∀ p ∈ (swap_rows demoSystem 0 1).planes,
      p.dimension = (swap_rows demoSystem 0 1).dimension) ∧
    (∀ p ∈ demoSetSystem.planes, p.dimension = demoSetSystem.dimension) ∧
    (∀ p ∈ (multiply_coefficient_and_row demoSystem 5 0).planes,
      p.dimension = (multiply_coefficient_and_row demoSystem 5 0).dimension) := by
  refine ⟨?_, ?_, ?_, ?_⟩
  · exact C3_amended_invariant.1 _ (mkPlane [1, 0, 0] 1) (mkLine [1, 0] 1)
      (by decide) (by decide) (by decide)
  · exact C3_amended_invariant.2.1 demoSystem 0 1 (by decide) (by decide) (by decide)
  · exact C3_amended_invariant.2.2.1 demoSystem demoSetSystem 0 (mkPlane [9, 9, 9] 9)
      (by decide) (by decide)
  · exact C3_amended_invariant.2.2.2 demoSystem 5 0 (by decide) (by decide)

/-- C5 counterexample: the RREF of cexSystem is consistent and its third row
is a pivot row (pivot column 0, constant 100000000000/9) sitting below the
pivot-less second row; the claim requires basepoint coordinate 0 to carry
that constant, but the source loop breaks at the pivot-less row and returns
(0, 1, 0) instead of the claimed (100000000000/9, 1, 0). -/
theorem C5_counterexample_break_skips_pivot_row :
    has_contradictory_equation cexRref = false ∧
    extract_basepoint_for_parametrization cexRref = [0, 1, 0] ∧
    claimed_basepoint cexRref = [100000000000 / 9, 1, 0] ∧
    extract_basepoint_for_parametrization cexRref ≠ claimed_basepoint cexRref := by
  exact ⟨by decide, by decide, by decide, by decide⟩

/-- C5 amended: the basepoint is an all-zero vector of size dimension in
which, for every RREF row that precedes the first pivot-less row (rows are
scanned top-down and the scan stops at the first row whose pivot index is
-1), the pivot coordinate is set to that row's constant term; rows at or
after the first pivot-less row contribute nothing. -/
theorem C5_amended_basepoint (s : LinearSystem) :
    extract_basepoint_for_parametrization s = amended_basepoint s := by
  unfold extract_basepoint_for_parametrization amended_basepoint scanned_rows
  exact basepoint_go_eq_takeWhile _ _

/-- C4 counterexample: on the consistent RREF of cexSystem the claim requires
the single free-column direction vector to carry, in coordinate 0, the
negation of the third row's coefficient -1/2 at free column 2 (the third row
has pivot column 0), i.e. (1/2, 0, 1); the source loop breaks at the
pivot-less second row and returns (0, 0, 1) instead. -/
theorem C4_counterexample_break_skips_pivot_row :
    has_contradictory_equation cexRref = false ∧
    extract_direction_vectors_for_parametrization cexRref = [[0, 0, 1]] ∧
    claimed_direction_vectors cexRref = [[1/2, 0, 1]] ∧
    extract_direction_vectors_for_parametrization cexRref ≠
      claimed_direction_vectors cexRref := by
  exact ⟨by decide, by decide, by decide, by decide⟩

/-- C4 amended: extraction produces exactly one direction vector per free
column, iterating free columns in ascending column index; each vector is a
zero vector of size dimension with coordinate f set to 1 and, for every RREF
row preceding the first pivot-less row (the scan stops there), the pivot
coordinate set to the negation of that row's coefficient at column f. -/
theorem C4_amended_direction_vectors (s : LinearSystem) :
    extract_direction_vectors_for_parametrization s =
      amended_direction_vectors s := by
  unfold extract_direction_vectors_for_parametrization amended_direction_vectors
    scanned_rows
  exact List.map_congr_left (fun f _ => direction_go_eq_takeWhile _ _ _)

/-- C2: on well-formed systems, compute_solution returns the no-solution
outcome as a regular value exactly when the RREF contains a row with no
pivot (index -1) and a non-near-zero constant term, and the no-solution
signal never escapes as a fault (an Except.error); in the contradictory case
do_gaussian_elimination_and_parametrize_solution errors before either
extraction function is applied. -/
theorem C2_no_solution_iff_contradictory_row (s : LinearSystem)
    (_hw : SystemWf s = true) :
    ((compute_solution s = Except.ok SolutionResult.noSolution) ↔
      has_contradictory_equation (compute_rref s) = true) ∧
    compute_solution s ≠ Except.error NO_SOLUTIONS_MSG := by
  cases hb : has_contradictory_equation (compute_rref s) with
  | true =>
    have hdo : do_gaussian_elimination_and_parametrize_solution s =
        Except.error NO_SOLUTIONS_MSG := by
      simp only [do_gaussian_elimination_and_parametrize_solution, hb, if_true]
    constructor
    · simp [compute_solution, hdo]
    · simp [compute_solution, hdo]
  | false =>
    have hdo := do_gaussian_of_consistent s hb
    constructor
    · simp [compute_solution, hdo]
    · simp [compute_solution, hdo]

/-- Witness for C2 at the Scenario A system. -/
theorem C2_no_solution_iff_contradictory_row_witness :
    SystemWf scenarioA = true ∧
    (((compute_solution scenarioA = Except.ok SolutionResult.noSolution) ↔
      has_contradictory_equation (compute_rref scenarioA) = true) ∧
    compute_solution scenarioA ≠ Except.error NO_SOLUTIONS_MSG) :=
  ⟨by decide, C2_no_solution_iff_contradictory_row scenarioA (by decide)⟩

/-- C8: whenever the current row's coefficient at the cursor column j is
near-zero, the swap helper behaves as a search over the rows strictly below
the current row (the scan of the source starts at the current row itself,
but that row fails the non-near-zero test): the first row below with a
non-near-zero coefficient at column j is swapped into the current position;
if none exists, the system is unchanged, no swap is reported, and the
forward-elimination loop advances the cursor to the next column. -/
theorem C8_swap_searches_strictly_below (s : LinearSystem) (row j : ℕ)
    (h : is_near_zero (coefAt s row j) = true) :
    (swap_with_row_below_for_nonzero_coefficient s row j =
      (match find_pivot_below s row j with
       | some i => (swap_rows s row i, true)
       | none => (s, false))) ∧
    (find_pivot_below s row j = none →
      ∀ n, j < n → tf_while s row j n = tf_while s row (j + 1) n) := by
  have hmain : swap_with_row_below_for_nonzero_coefficient s row j =
      (match find_pivot_below s row j with
       | some i => (swap_rows s row i, true)
       | none => (s, false)) := by
    unfold swap_with_row_below_for_nonzero_coefficient find_pivot_below
    by_cases hrow : row < s.planes.length
    · have hsplit : s.planes.length - row = (s.planes.length - (row + 1)) + 1 := by
        omega
      rw [hsplit, List.range'_succ]
      rw [show swap_scan s row j (row :: List.range' (row + 1)
          (s.planes.length - (row + 1))) =
          swap_scan s row j (List.range' (row + 1) (s.planes.length - (row + 1))) by
        simp [swap_scan, h]]
      exact swap_scan_eq_find s row j _
    · have h1 : s.planes.length - row = 0 := by omega
      have h2 : s.planes.length - (row + 1) = 0 := by omega
      rw [h1, h2]
      rfl
  refine ⟨hmain, ?_⟩
  intro hnone n hn
  have hswap : swap_with_row_below_for_nonzero_coefficient s row j = (s, false) := by
    rw [hmain, hnone]
  unfold tf_while
  have hfuel : n - j = (n - (j + 1)) + 1 := by omega
  rw [hfuel]
  simp only [tf_while_go, if_pos hn, h, if_true, hswap]
  rfl

/-! Lemmas for the C7 fixpoint theorem. -/

theorem is_near_zero_zero : is_near_zero 0 = true := by decide

theorem is_near_zero_one : is_near_zero 1 = false := by decide

theorem map_mul_one (l : List ℚ) : l.map (fun x => x * 1) = l := by
  induction l with
  | nil => rfl
  | cons a t ih => simp [ih]

theorem setPlanes_self (s : LinearSystem) : setPlanes s s.planes = s := by
  cases s
  rfl

theorem mkPlane_eta (p : Hyperplane) (h : p.dimension = 3) :
    mkPlane p.normal_vector p.constant_term = p := by
  cases p with
  | mk d nv k =>
    have h2 : d = 3 := h
    subst h2
    rfl

theorem clear_below_noop (s : LinearSystem) (row j : ℕ)
    (h : ∀ i, row + 1 ≤ i → i < s.planes.length →
      is_near_zero (coefAt s i j) = true) :
    clear_coefficients_below s row j = s := by
  unfold clear_coefficients_below
  apply foldl_fixed
  intro i hi
  obtain ⟨h1, h2⟩ := List.mem_range'_1.mp hi
  have hilen : i < s.planes.length := by omega
  simp [h i h1 hilen]

theorem clear_above_noop (s : LinearSystem) (row j : ℕ)
    (h : ∀ i, i < row → is_near_zero (coefAt s i j) = true) :
    clear_coefficients_above s row j = s := by
  unfold clear_coefficients_above
  apply foldl_fixed
  intro i hi
  have hlt : i < row := List.mem_range.mp (List.mem_reverse.mp hi)
  simp [h i hlt]

theorem swap_with_none (s : LinearSystem) (row j : ℕ)
    (h : ∀ i, row ≤ i → i < s.planes.length →
      is_near_zero (coefAt s i j) = true) :
    swap_with_row_below_for_nonzero_coefficient s row j = (s, false) := by
  unfold swap_with_row_below_for_nonzero_coefficient
  rw [swap_scan_eq_find]
  rw [List.find?_eq_none.mpr ?none]
  case none =>
    intro i hi
    obtain ⟨h1, h2⟩ := List.mem_range'_1.mp hi
    have hilen : i < s.planes.length := by omega
    simp [h i h1 hilen]

theorem tf_while_go_pivot (s : LinearSystem) (row p n : ℕ)
    (hrow : row < s.planes.length) (hpn : p < n)
    (hpiv : is_near_zero (coefAt s row p) = false)
    (hbelow : ∀ r, row < r → r < s.planes.length →
      is_near_zero (coefAt s r p) = true) :
    ∀ fuel j, fuel = n - j → j ≤ p →
      (∀ c, j ≤ c → c < p → ∀ r, row ≤ r → r < s.planes.length →
        is_near_zero (coefAt s r c) = true) →
      tf_while_go fuel s row j n = (s, p + 1) := by
  intro fuel
  induction fuel with
  | zero =>
    intro j hf hjp hcols
    omega
  | succ f ih =>
    intro j hf hjp hcols
    have hjn : j < n := by omega
    by_cases hjp2 : j = p
    · subst hjp2
      rw [show tf_while_go (f + 1) s row j n = (clear_coefficients_below s row j, j + 1) by
        simp [tf_while_go, hjn, hpiv]]
      rw [clear_below_noop s row j (fun i hi1 hi2 => hbelow i (by omega) hi2)]
    · have hjlt : j < p := by omega
      have hcur : is_near_zero (coefAt s row j) = true :=
        hcols j le_rfl hjlt row le_rfl hrow
      have hswap : swap_with_row_below_for_nonzero_coefficient s row j = (s, false) :=
        swap_with_none s row j (fun i hi1 hi2 => hcols j le_rfl hjlt i hi1 hi2)
      rw [show tf_while_go (f + 1) s row j n = tf_while_go f s row (j + 1) n by
        simp [tf_while_go, hjn, hcur, hswap]]
      exact ih (j + 1) (by omega) (by omega)
        (fun c hc1 hc2 r hr1 hr2 => hcols c (by omega) hc2 r hr1 hr2)

theorem tf_while_go_allzero (s : LinearSystem) (row n : ℕ)
    (hrow : row < s.planes.length) :
    ∀ fuel j, fuel = n - j → j ≤ n →
      (∀ c, j ≤ c → c < n → ∀ r, row ≤ r → r < s.planes.length →
        is_near_zero (coefAt s r c) = true) →
      tf_while_go fuel s row j n = (s, n) := by
  intro fuel
  induction fuel with
  | zero =>
    intro j hf hjn hcols
    have hj : j = n := by omega
    subst hj
    rfl
  | succ f ih =>
    intro j hf hjn hcols
    have hjn2 : j < n := by omega
    have hcur : is_near_zero (coefAt s row j) = true :=
      hcols j le_rfl hjn2 row le_rfl hrow
    have hswap : swap_with_row_below_for_nonzero_coefficient s row j = (s, false) :=
      swap_with_none s row j (fun i hi1 hi2 => hcols j le_rfl hjn2 i hi1 hi2)
    rw [show tf_while_go (f + 1) s row j n = tf_while_go f s row (j + 1) n by
      simp [tf_while_go, hjn2, hcur, hswap]]
    exact ih (j + 1) (by omega) (by omega)
      (fun c hc1 hc2 r hr1 hr2 => hcols c (by omega) hc2 r hr1 hr2)

theorem pairwise_getD_lt (ps : List ℕ)
    (h : List.Pairwise (fun a b => a < b) ps) (i r : ℕ) (hir : i < r)
    (hr : r < ps.length) : ps.getD i 0 < ps.getD r 0 := by
  have hi : i < ps.length := by omega
  have := List.pairwise_iff_get.mp h ⟨i, hi⟩ ⟨r, hr⟩ hir
  rw [List.getD_eq_get ps 0 hi, List.getD_eq_get ps 0 hr]
  exact this

theorem bool_and_true {a b : Bool} (h : (a && b) = true) :
    a = true ∧ b = true := by
  cases a <;> cases b <;> simp_all

theorem fnz_some_lt_length (l : List ℚ) (p : ℕ)
    (h : first_nonzero_index l = some p) : p < l.length := by
  induction l generalizing p with
  | nil => cases h
  | cons x xs ih =>
    cases hx : is_near_zero x with
    | true =>
      rw [show first_nonzero_index (x :: xs) =
          (first_nonzero_index xs).map (fun k => k + 1) by
        simp [first_nonzero_index, hx]] at h
      obtain ⟨q, hq, hqe⟩ := Option.map_eq_some'.mp h
      have := ih q hq
      simp only [List.length_cons]
      omega
    | false =>
      rw [show first_nonzero_index (x :: xs) = some 0 by
        simp [first_nonzero_index, hx]] at h
      have hp : (0 : ℕ) = p := Option.some.inj h
      simp only [List.length_cons]
      omega

theorem fnz_some_before (l : List ℚ) (p : ℕ)
    (h : first_nonzero_index l = some p) :
    ∀ c, c < p → is_near_zero (l.getD c 0) = true := by
  induction l generalizing p with
  | nil => cases h
  | cons x xs ih =>
    intro c hc
    cases hx : is_near_zero x with
    | true =>
      rw [show first_nonzero_index (x :: xs) =
          (first_nonzero_index xs).map (fun k => k + 1) by
        simp [first_nonzero_index, hx]] at h
      obtain ⟨q, hq, hqe⟩ := Option.map_eq_some'.mp h
      cases c with
      | zero =>
        simp only [List.getD_cons_zero]
        exact hx
      | succ c =>
        simp only [List.getD_cons_succ]
        exact ih q hq c (by omega)
    | false =>
      rw [show first_nonzero_index (x :: xs) = some 0 by
        simp [first_nonzero_index, hx]] at h
      have hp : (0 : ℕ) = p := Option.some.inj h
      omega

theorem fnz_none_mem (l : List ℚ)
    (h : first_nonzero_index l = none) :
    ∀ x ∈ l, is_near_zero x = true := by
  induction l with
  | nil =>
    intro x hx
    cases hx
  | cons y ys ih =>
    intro x hx
    cases hy : is_near_zero y with
    | true =>
      rw [show first_nonzero_index (y :: ys) =
          (first_nonzero_index ys).map (fun k => k + 1) by
        simp [first_nonzero_index, hy]] at h
      have hnone : first_nonzero_index ys = none := Option.map_eq_none'.mp h
      rcases List.mem_cons.mp hx with rfl | hx2
      · exact hy
      · exact ih hnone x hx2
    | false =>
      rw [show first_nonzero_index (y :: ys) = some 0 by
        simp [first_nonzero_index, hy]] at h
      cases h

theorem near_zero_getD (l : List ℚ)
    (h : ∀ x ∈ l, is_near_zero x = true) (c : ℕ) :
    is_near_zero (l.getD c 0) = true := by
  by_cases hc : c < l.length
  · exact h _ (getD_mem_of_lt _ _ _ hc)
  · rw [List.getD_eq_default _ _ (by omega)]
    exact is_near_zero_zero

theorem spec_zero_left (s : LinearSystem) (ps : List ℕ)
    (hS : SpecRrefShape s ps) (i : ℕ) (hi : i < ps.length) :
    ∀ r, i ≤ r → r < s.planes.length → ∀ c, c < ps.getD i 0 →
      is_near_zero (coefAt s r c) = true := by
  intro r hir hr c hc
  by_cases hrk : r < ps.length
  · have hle : ps.getD i 0 ≤ ps.getD r 0 := by
      rcases Nat.eq_or_lt_of_le hir with heq | hlt
      · rw [heq]
      · exact Nat.le_of_lt (pairwise_getD_lt ps hS.mono i r hlt hrk)
    exact fnz_some_before _ _ (hS.fnz r hrk) c (by omega)
  · exact near_zero_getD _ (fnz_none_mem _ (hS.zero_rows r hr (by omega))) c

theorem tf_for_spec (s : LinearSystem) (ps : List ℕ) (hS : SpecRrefShape s ps) :
    ∀ rem i j, i + rem = s.planes.length →
      (i < ps.length → j ≤ ps.getD i 0) →
      (ps.length ≤ i → j ≤ s.dimension) →
      tf_for s.dimension (List.range' i rem) s j = s := by
  intro rem
  induction rem with
  | zero => intro i j _ _ _; rfl
  | succ rm ih =>
    intro i j hsum hj1 hj2
    have hi : i < s.planes.length := by omega
    rw [List.range'_succ]
    by_cases hik : i < ps.length
    · have hres : tf_while s i j s.dimension = (s, ps.getD i 0 + 1) := by
        unfold tf_while
        exact tf_while_go_pivot s i (ps.getD i 0) s.dimension hi (hS.lt_dim i hik)
          (by rw [hS.pivot_one i hik]; exact is_near_zero_one)
          (fun r hr1 hr2 => hS.unit_col i hik r hr2 (by omega))
          (s.dimension - j) j rfl (hj1 hik)
          (fun c hc1 hc2 r hr1 hr2 => spec_zero_left s ps hS i hik r hr1 hr2 c hc2)
      rw [show tf_for s.dimension (i :: List.range' (i + 1) rm) s j =
          tf_for s.dimension (List.range' (i + 1) rm)
            (tf_while s i j s.dimension).1 (tf_while s i j s.dimension).2 from rfl]
      rw [hres]
      refine ih (i + 1) (ps.getD i 0 + 1) (by omega) ?_ ?_
      · intro hik2
        exact pairwise_getD_lt ps hS.mono i (i + 1) (by omega) hik2
      · intro _
        exact hS.lt_dim i hik
    · have hres : tf_while s i j s.dimension = (s, s.dimension) := by
        unfold tf_while
        exact tf_while_go_allzero s i s.dimension hi (s.dimension - j) j rfl
          (hj2 (by omega))
          (fun c hc1 hc2 r hr1 hr2 =>
            near_zero_getD _ (fnz_none_mem _ (hS.zero_rows r hr2 (by omega))) c)
      rw [show tf_for s.dimension (i :: List.range' (i + 1) rm) s j =
          tf_for s.dimension (List.range' (i + 1) rm)
            (tf_while s i j s.dimension).1 (tf_while s i j s.dimension).2 from rfl]
      rw [hres]
      exact ih (i + 1) s.dimension (by omega)
        (fun hcon => absurd hcon (by omega)) (fun _ => le_rfl)

theorem compute_triangular_form_spec (s : LinearSystem) (ps : List ℕ)
    (hS : SpecRrefShape s ps) : compute_triangular_form s = s := by
  unfold compute_triangular_form
  rw [List.range_eq_range']
  exact tf_for_spec s ps hS s.planes.length 0 0 (by omega)
    (fun _ => Nat.zero_le _) (fun _ => Nat.zero_le _)

theorem indices_spec (s : LinearSystem) (ps : List ℕ) (hS : SpecRrefShape s ps)
    (r : ℕ) (hr : r < s.planes.length) :
    (indices_of_first_nonzero_terms_in_each_row s).getD r (-1) =
      if r < ps.length then ((ps.getD r 0 : ℕ) : ℤ) else -1 := by
  unfold indices_of_first_nonzero_terms_in_each_row
  rw [getD_map_lt _ _ r _ defaultHyperplane hr]
  by_cases hk : r < ps.length
  · rw [if_pos hk, hS.fnz r hk]
  · rw [if_neg hk, hS.zero_rows r hr (by omega)]

theorem scale_spec (s : LinearSystem) (ps : List ℕ) (hS : SpecRrefShape s ps)
    (row : ℕ) (hk : row < ps.length) :
    scale_row_to_make_coefficient_equal_to_one s row (ps.getD row 0) = s := by
  have hrowlen : row < s.planes.length := by
    have := hS.num_rows
    omega
  have hp3 : (s.planes.getD row defaultHyperplane).dimension = 3 :=
    hS.dims3 _ (getD_mem_of_lt _ _ _ hrowlen)
  unfold scale_row_to_make_coefficient_equal_to_one
  rw [hS.pivot_one row hk]
  rw [show (1 : ℚ) / 1 = 1 from div_one 1]
  simp only [multiply_coefficient_and_row]
  rw [map_mul_one, mul_one, mkPlane_eta _ hp3, getD_set_self]
  exact setPlanes_self s

/-- Core fixpoint: a system of the tolerance-aware reduced row-echelon shape
is returned by compute_rref completely unchanged. -/
theorem rref_fixpoint_of_shape (s : LinearSystem) (ps : List ℕ)
    (hS : SpecRrefShape s ps) : compute_rref s = s := by
  have htf := compute_triangular_form_spec s ps hS
  simp only [compute_rref, htf]
  apply foldl_fixed
  intro row hrow
  have hr : row < s.planes.length :=
    List.mem_range.mp (List.mem_reverse.mp hrow)
  rw [indices_spec s ps hS row hr]
  by_cases hk : row < ps.length
  · rw [if_pos hk]
    rw [if_neg (by omega : ¬(((ps.getD row 0 : ℕ) : ℤ) < 0))]
    rw [show (((ps.getD row 0 : ℕ) : ℤ)).toNat = ps.getD row 0 by omega]
    rw [scale_spec s ps hS row hk]
    exact clear_above_noop s row (ps.getD row 0)
      (fun i hi => hS.unit_col row hk i (by omega) (by omega))
  · rw [if_neg hk]
    rw [if_pos (by omega : (-1 : ℤ) < 0)]

/-! Extraction of the shape from the Bool conditions of the specification. -/

theorem lead_pivots_length_le (l : List ℤ) : (lead_pivots l).length ≤ l.length := by
  induction l with
  | nil => simp [lead_pivots]
  | cons z rest ih =>
    by_cases hz : z < 0
    · simp [lead_pivots, hz]
    · simp only [lead_pivots, if_neg hz, List.length_cons]
      omega

theorem lead_pivots_getD (l : List ℤ) :
    ∀ i, i < (lead_pivots l).length →
      (((lead_pivots l).getD i 0 : ℕ) : ℤ) = l.getD i (-1) := by
  induction l with
  | nil =>
    intro i hi
    simp [lead_pivots] at hi
  | cons z rest ih =>
    intro i hi
    by_cases hz : z < 0
    · simp [lead_pivots, hz] at hi
    · simp only [lead_pivots, if_neg hz] at hi ⊢
      cases i with
      | zero =>
        simp only [List.getD_cons_zero]
        omega
      | succ i =>
        simp only [List.getD_cons_succ]
        exact ih i (by simpa using hi)

theorem lead_pivots_neg (l : List ℤ) (h : no_pivot_after l = true) :
    ∀ r, (lead_pivots l).length ≤ r → r < l.length → l.getD r (-1) < 0 := by
  induction l with
  | nil =>
    intro r h1 h2
    simp at h2
  | cons z rest ih =>
    intro r h1 h2
    by_cases hz : z < 0
    · cases r with
      | zero => simpa using hz
      | succ r =>
        have hall : rest.all (fun w => decide (w < 0)) = true := by
          simpa [no_pivot_after, hz] using h
        have hmem := List.all_eq_true.mp hall (rest.getD r (-1))
          (getD_mem_of_lt _ _ _ (by simpa using h2))
        simpa using hmem
    · have hrest : no_pivot_after rest = true := by
        simpa [no_pivot_after, hz] using h
      cases r with
      | zero =>
        simp [lead_pivots, hz] at h1
      | succ r =>
        simp only [lead_pivots, if_neg hz, List.length_cons] at h1
        simp only [List.getD_cons_succ]
        exact ih hrest r (by omega) (by simpa using h2)

theorem filter_nonneg_eq_lead (l : List ℤ) (h : no_pivot_after l = true) :
    l.filter (fun z => decide (0 ≤ z)) =
      (lead_pivots l).map (fun n : ℕ => (n : ℤ)) := by
  induction l with
  | nil => rfl
  | cons z rest ih =>
    by_cases hz : z < 0
    · have hall : rest.all (fun w => decide (w < 0)) = true := by
        simpa [no_pivot_after, hz] using h
      have hfil : rest.filter (fun z => decide (0 ≤ z)) = [] := by
        rw [List.filter_eq_nil]
        intro a ha
        have := List.all_eq_true.mp hall a ha
        simp at this ⊢
        omega
      simp [List.filter_cons, hz, hfil, lead_pivots]
    · have hrest : no_pivot_after rest = true := by
        simpa [no_pivot_after, hz] using h
      simp only [List.filter_cons, lead_pivots, if_neg hz]
      rw [if_pos (by simpa using (by omega : (0 : ℤ) ≤ z))]
      rw [ih hrest]
      simp only [List.map_cons]
      congr 1
      omega

theorem strictly_increasing_pairwise (l : List ℤ)
    (h : strictly_increasing l = true) :
    List.Pairwise (fun a b : ℤ => a < b) l := by
  induction l with
  | nil => exact List.Pairwise.nil
  | cons a t ih =>
    cases t with
    | nil => simp
    | cons b rest =>
      have h2 : (decide (a < b) && strictly_increasing (b :: rest)) = true := by
        simpa [strictly_increasing] using h
      obtain ⟨hab, hbr⟩ := bool_and_true h2
      have hab2 : a < b := of_decide_eq_true hab
      have hp := ih hbr
      refine List.Pairwise.cons ?_ hp
      intro x hx
      rcases List.mem_cons.mp hx with rfl | hx2
      · exact hab2
      · have := (List.pairwise_cons.mp hp).1 x hx2
        omega

theorem within_tolerance_refl (s : LinearSystem) :
    within_tolerance s s = true := by
  simp [within_tolerance, List.all_eq_true, sub_self, is_near_zero_zero]

theorem spec_rref_row_fact (s : LinearSystem) (hrref : spec_is_rref s = true)
    (i : ℕ) (him : i < s.planes.length) (p : ℕ)
    (hpi : (indices_of_first_nonzero_terms_in_each_row s).getD i (-1) = (p : ℤ)) :
    coefAt s i p = 1 ∧
    ∀ r, r < s.planes.length → r ≠ i → is_near_zero (coefAt s r p) = true := by
  have hparts :
      ((List.range s.planes.length).all (fun i =>
        let pv := (indices_of_first_nonzero_terms_in_each_row s).getD i (-1)
        if pv < 0 then true
        else
          (coefAt s i pv.toNat == 1) &&
            (List.range s.planes.length).all (fun r =>
              r == i || is_near_zero (coefAt s r pv.toNat))) = true) ∧
      strictly_increasing ((indices_of_first_nonzero_terms_in_each_row s).filter
        (fun z => decide (0 ≤ z))) = true :=
    bool_and_true hrref
  have hi2 : (if (indices_of_first_nonzero_terms_in_each_row s).getD i (-1) < 0
      then true
      else
        (coefAt s i ((indices_of_first_nonzero_terms_in_each_row s).getD i
            (-1)).toNat == 1) &&
          (List.range s.planes.length).all (fun r =>
            r == i || is_near_zero (coefAt s r
              ((indices_of_first_nonzero_terms_in_each_row s).getD i
                (-1)).toNat))) = true :=
    List.all_eq_true.mp hparts.1 i (List.mem_range.mpr him)
  rw [hpi] at hi2
  rw [if_neg (by omega : ¬((p : ℤ) < 0))] at hi2
  rw [show ((p : ℕ) : ℤ).toNat = p by omega] at hi2
  obtain ⟨hone, hcols⟩ := bool_and_true hi2
  refine ⟨beq_iff_eq.mp hone, ?_⟩
  intro r hr hrne
  have h3 : (r == i || is_near_zero (coefAt s r p)) = true :=
    List.all_eq_true.mp hcols r (List.mem_range.mpr hr)
  rw [show (r == i) = false from beq_eq_false_iff_ne.mpr hrne, Bool.false_or] at h3
  exact h3

theorem spec_shape_of_flags (s : LinearSystem)
    (hwf : SystemWf s = true) (hrref : spec_is_rref s = true)
    (hlast : pivotless_rows_last s = true) :
    SpecRrefShape s (lead_pivots (indices_of_first_nonzero_terms_in_each_row s)) := by
  have hwf2 : s.planes.all (fun p =>
      p.dimension == 3 && p.normal_vector.length == s.dimension) = true := hwf
  have hnp : no_pivot_after (indices_of_first_nonzero_terms_in_each_row s) = true :=
    hlast
  have hPlen : (indices_of_first_nonzero_terms_in_each_row s).length =
      s.planes.length := by
    unfold indices_of_first_nonzero_terms_in_each_row
    exact List.length_map _ _
  have hProw : ∀ r, r < s.planes.length →
      (indices_of_first_nonzero_terms_in_each_row s).getD r (-1) =
        (match first_nonzero_index
            ((s.planes.getD r defaultHyperplane).normal_vector) with
         | some k => (k : ℤ)
         | none => -1) := by
    intro r hr
    unfold indices_of_first_nonzero_terms_in_each_row
    exact getD_map_lt _ _ r _ defaultHyperplane hr
  have hwfrow : ∀ r, r < s.planes.length →
      (s.planes.getD r defaultHyperplane).dimension = 3 ∧
      (s.planes.getD r defaultHyperplane).normal_vector.length = s.dimension := by
    intro r hr
    have h1 := List.all_eq_true.mp hwf2 _
      (getD_mem_of_lt s.planes r defaultHyperplane hr)
    have h2 : ((s.planes.getD r defaultHyperplane).dimension == 3 &&
        (s.planes.getD r defaultHyperplane).normal_vector.length ==
          s.dimension) = true := h1
    obtain ⟨h3, h4⟩ := bool_and_true h2
    exact ⟨beq_iff_eq.mp h3, beq_iff_eq.mp h4⟩
  have hklen : (lead_pivots (indices_of_first_nonzero_terms_in_each_row s)).length ≤
      s.planes.length := by
    have := lead_pivots_length_le (indices_of_first_nonzero_terms_in_each_row s)
    omega
  have hfnz : ∀ i,
      i < (lead_pivots (indices_of_first_nonzero_terms_in_each_row s)).length →
      first_nonzero_index ((s.planes.getD i defaultHyperplane).normal_vector) =
        some ((lead_pivots (indices_of_first_nonzero_terms_in_each_row s)).getD i 0) := by
    intro i hik
    have him : i < s.planes.length := by omega
    have h1 := lead_pivots_getD (indices_of_first_nonzero_terms_in_each_row s) i hik
    have h2 := hProw i him
    cases hf : first_nonzero_index
        ((s.planes.getD i defaultHyperplane).normal_vector) with
    | none =>
      exfalso
      simp only [hf] at h2
      omega
    | some q =>
      simp only [hf] at h2
      have hq : (lead_pivots (indices_of_first_nonzero_terms_in_each_row s)).getD
          i 0 = q := by omega
      rw [hq]
  have hzero : ∀ r, r < s.planes.length →
      (lead_pivots (indices_of_first_nonzero_terms_in_each_row s)).length ≤ r →
      first_nonzero_index ((s.planes.getD r defaultHyperplane).normal_vector) =
        none := by
    intro r hr hkr
    have h2 := hProw r hr
    have hneg := lead_pivots_neg (indices_of_first_nonzero_terms_in_each_row s)
      hnp r hkr (by omega)
    cases hf : first_nonzero_index
        ((s.planes.getD r defaultHyperplane).normal_vector) with
    | none => rfl
    | some q =>
      exfalso
      rw [h2] at hneg
      simp only [hf] at hneg
      exact absurd hneg (not_lt.mpr (Int.natCast_nonneg q))
  refine
    { num_rows := hklen
      mono := ?_
      lt_dim := ?_
      fnz := hfnz
      pivot_one := ?_
      unit_col := ?_
      zero_rows := hzero
      dims3 := ?_ }
  · have hfil := filter_nonneg_eq_lead
      (indices_of_first_nonzero_terms_in_each_row s) hnp
    have hsi : strictly_increasing
        ((indices_of_first_nonzero_terms_in_each_row s).filter
          (fun z => decide (0 ≤ z))) = true :=
      (bool_and_true hrref).2
    rw [hfil] at hsi
    have hpw := strictly_increasing_pairwise _ hsi
    have hpw2 := List.pairwise_map.mp hpw
    exact hpw2.imp (fun h => by omega)
  · intro i hik
    have him : i < s.planes.length := by omega
    have hlen := fnz_some_lt_length _ _ (hfnz i hik)
    have := (hwfrow i him).2
    omega
  · intro i hik
    have him : i < s.planes.length := by omega
    have hpi : (indices_of_first_nonzero_terms_in_each_row s).getD i (-1) =
        (((lead_pivots (indices_of_first_nonzero_terms_in_each_row s)).getD
          i 0 : ℕ) : ℤ) :=
      (lead_pivots_getD _ i hik).symm
    exact (spec_rref_row_fact s hrref i him _ hpi).1
  · intro i hik r hr hrne
    have him : i < s.planes.length := by omega
    have hpi : (indices_of_first_nonzero_terms_in_each_row s).getD i (-1) =
        (((lead_pivots (indices_of_first_nonzero_terms_in_each_row s)).getD
          i 0 : ℕ) : ℤ) :=
      (lead_pivots_getD _ i hik).symm
    exact (spec_rref_row_fact s hrref i him _ hpi).2 r hr hrne
  · intro p hp
    have h1 := List.all_eq_true.mp hwf2 p hp
    have h2 : (p.dimension == 3 &&
        p.normal_vector.length == s.dimension) = true := h1
    exact beq_iff_eq.mp (bool_and_true h2).1

/-- C7 amended: on a well-formed system (dimension-3 Plane rows whose
normal vectors have the engine dimension) that is already in reduced
row-echelon form in the tolerance-aware sense of the specification (each
pivot row's first non-near-zero coefficient equals 1, every other row is
near-zero in that pivot column, pivot columns strictly increasing among the
pivot rows) and whose pivot-less rows all sit below the pivot rows,
compute_rref returns the same system - unchanged exactly, hence within the
1e-10 tolerance. -/
theorem C7_amended_rref_fixpoint (s : LinearSystem)
    (hwf : SystemWf s = true) (hrref : spec_is_rref s = true)
    (hlast : pivotless_rows_last s = true) :
    compute_rref s = s ∧ within_tolerance (compute_rref s) s = true := by
  have hS := spec_shape_of_flags s hwf hrref hlast
  have hfix := rref_fixpoint_of_shape s _ hS
  refine ⟨hfix, ?_⟩
  rw [hfix]
  exact within_tolerance_refl s

/-- Witness for C7 amended at a concrete reduced row-echelon system carrying
within-tolerance noise (9e-11 entries) off the pivots. -/
theorem C7_amended_rref_fixpoint_witness :
    (SystemWf noisyRrefFixture = true ∧ spec_is_rref noisyRrefFixture = true ∧
      pivotless_rows_last noisyRrefFixture = true) ∧
    (compute_rref noisyRrefFixture = noisyRrefFixture ∧
      within_tolerance (compute_rref noisyRrefFixture) noisyRrefFixture = true) :=
  ⟨⟨by decide, by decide, by decide⟩,
    C7_amended_rref_fixpoint noisyRrefFixture (by decide) (by decide) (by decide)⟩

/-- C7 fails as stated: rrefFixture satisfies the specification notion of a
system already in reduced row-echelon form (the specification allows its
pivot-less rows to sit anywhere), yet compute_rref swaps the pivot row below
the zero row upward and returns a system that differs from the input by far
more than the 1e-10 tolerance. -/
theorem C7_counterexample_not_idempotent :
    spec_is_rref rrefFixture = true ∧
    within_tolerance (compute_rref rrefFixture) rrefFixture = false := by
  exact ⟨by decide, by decide⟩

/-- Witness for C8 at a concrete system with a near-zero leading entry. -/
theorem C8_swap_searches_strictly_below_witness :
    is_near_zero (coefAt demoSwapSystem 0 0) = true ∧
    ((swap_with_row_below_for_nonzero_coefficient demoSwapSystem 0 0 =
      (match find_pivot_below demoSwapSystem 0 0 with
       | some i => (swap_rows demoSwapSystem 0 i, true)
       | none => (demoSwapSystem, false))) ∧
    (find_pivot_below demoSwapSystem 0 0 = none →
      ∀ n, 0 < n → tf_while demoSwapSystem 0 0 n = tf_while demoSwapSystem 0 1 n)) :=
  ⟨by decide, C8_swap_searches_strictly_below demoSwapSystem 0 0 (by decide)⟩

end NumComp
